import Mathlib

/-!
Shallow embedding of the `ampacs/time` library core (src/time.ts): the
deterministic `UpdateableTimeRegistry` scheduler and the `Interval`, `Delay`
and `Until` primitives layered on top of it.

Conventions of the embedding:
* JavaScript millisecond values are modelled as `Int` (they may be negative;
  no claim depends on floating-point rounding).
* Callbacks stored in the registry are inert labels of a type parameter `α`;
  `update` returns, besides the new registry, the ordered trace of fired
  `(id, handler)` pairs.  The primitive layers interpret the fired labels of
  their own closures.
* JavaScript `Map` iteration order is insertion order; the maps are embedded
  as association lists kept in insertion order.
-/

namespace TimeLib

/-- `Number.MAX_SAFE_INTEGER`. -/
def MAX_SAFE_INTEGER : Int := 2 ^ 53 - 1

/-- `Number.MIN_SAFE_INTEGER`. -/
def MIN_SAFE_INTEGER : Int := -(2 ^ 53 - 1)

/-- A one-shot work item of the deterministic registry
(source type `TimeoutHandler`, src/time.ts lines 441-445; the `args` array is
folded into the handler label). -/
structure TimeoutHandler (α : Type) where
  handler : α
  allowedExecutionTime : Int
deriving DecidableEq, Repr

/-- A repeating work item of the deterministic registry
(source type `IntervalHandler`, src/time.ts lines 447-449). -/
structure IntervalHandler (α : Type) where
  handler : α
  allowedExecutionTime : Int
  interval : Int
deriving DecidableEq, Repr

/-- State of `UpdateableTimeRegistry` (src/time.ts lines 459-476): the two
insertion-ordered maps, the cycling id counter and the logical clock. -/
structure UpdateableTimeRegistry (α : Type) where
  intervals : List (Int × IntervalHandler α)
  timeouts : List (Int × TimeoutHandler α)
  currentId : Int
  lastTime : Int
deriving DecidableEq, Repr

/-- The constructor `new UpdateableTimeRegistry(startTime)`
(src/time.ts lines 473-476): empty maps, `_currentId = Number.MIN_SAFE_INTEGER`,
`_lastTime = startTime`. -/
def mkRegistry (α : Type) (startTime : Int) : UpdateableTimeRegistry α :=
  { intervals := []
    timeouts := []
    currentId := MIN_SAFE_INTEGER
    lastTime := startTime }

/-- `UpdateableTimeRegistry.now()` (src/time.ts lines 510-513). -/
def UpdateableTimeRegistry.now (r : UpdateableTimeRegistry α) : Int :=
  r.lastTime

/-- The first loop of `update` (src/time.ts lines 487-495): visit the repeating
items in insertion order; when `currentTime >= allowedExecutionTime`, record the
firing and set `allowedExecutionTime = currentTime + interval`. -/
def runIntervals (currentTime : Int) :
    List (Int × IntervalHandler α) →
      List (Int × IntervalHandler α) × List (Int × α)
  | [] => ([], [])
  | (id, h) :: rest =>
    let r := runIntervals currentTime rest
    if currentTime ≥ h.allowedExecutionTime then
      ((id, ⟨h.handler, currentTime + h.interval, h.interval⟩) :: r.1,
        (id, h.handler) :: r.2)
    else
      ((id, h) :: r.1, r.2)

/-- The second loop of `update` (src/time.ts lines 497-505): visit the one-shot
items in insertion order; when `currentTime >= allowedExecutionTime`, record the
firing and delete the item (`this.clearTimeout(id)`). -/
def runTimeouts (currentTime : Int) :
    List (Int × TimeoutHandler α) →
      List (Int × TimeoutHandler α) × List (Int × α)
  | [] => ([], [])
  | (id, h) :: rest =>
    let r := runTimeouts currentTime rest
    if currentTime ≥ h.allowedExecutionTime then
      (r.1, (id, h.handler) :: r.2)
    else
      ((id, h) :: r.1, r.2)

/-- `UpdateableTimeRegistry.update(delta)` (src/time.ts lines 483-508).
Returns the new registry together with the ordered firing traces of the
repeating and of the one-shot items.  `_lastTime = currentTime` is assigned
only after both loops, so `now()` returns the pre-update `lastTime` for the
whole duration of the call. -/
def UpdateableTimeRegistry.update (r : UpdateableTimeRegistry α) (delta : Int) :
    UpdateableTimeRegistry α × List (Int × α) × List (Int × α) :=
  let currentTime := r.lastTime + delta
  let ivs := runIntervals currentTime r.intervals
  let tos := runTimeouts currentTime r.timeouts
  ({ r with intervals := ivs.1, timeouts := tos.1, lastTime := currentTime },
    ivs.2, tos.2)

/-- `_generateId()` (src/time.ts lines 556-571): post-increment, wrapping back
to `MIN_SAFE_INTEGER` when the counter reaches `MAX_SAFE_INTEGER`. -/
def UpdateableTimeRegistry.generateId (r : UpdateableTimeRegistry α) :
    Int × UpdateableTimeRegistry α :=
  let id := r.currentId
  let next := r.currentId + 1
  (id,
    { r with
      currentId := if next = MAX_SAFE_INTEGER then MIN_SAFE_INTEGER else next })

/-- The clamping expression `x ? Math.max(x, 0) : 0` used by `setInterval`
(src/time.ts line 519) and `setTimeout` (line 540); `none` models an absent
(`undefined`) argument, which is falsy like `0`. -/
def clampMs : Option Int → Int
  | none => 0
  | some i => if i = 0 then 0 else max i 0

/-- `UpdateableTimeRegistry.setInterval(handler, interval)` (src/time.ts lines
515-529): fresh id, clamp the period, insert the item at the end of the map
with `allowedExecutionTime = this._lastTime + interval`. -/
def UpdateableTimeRegistry.setInterval (r : UpdateableTimeRegistry α)
    (handler : α) (interval : Option Int) : Int × UpdateableTimeRegistry α :=
  let g := r.generateId
  let iv := clampMs interval
  (g.1,
    { g.2 with
      intervals :=
        g.2.intervals ++ [(g.1, ⟨handler, g.2.lastTime + iv, iv⟩)] })

/-- `UpdateableTimeRegistry.clearInterval(id)` (src/time.ts lines 531-534). -/
def UpdateableTimeRegistry.clearInterval (r : UpdateableTimeRegistry α)
    (id : Int) : UpdateableTimeRegistry α :=
  { r with intervals := r.intervals.filter (fun p => p.1 ≠ id) }

/-- `UpdateableTimeRegistry.setTimeout(handler, delay)` (src/time.ts lines
536-549): fresh id, clamp the delay, insert at the end of the map with
`allowedExecutionTime = this._lastTime + delay`. -/
def UpdateableTimeRegistry.setTimeout (r : UpdateableTimeRegistry α)
    (handler : α) (delay : Option Int) : Int × UpdateableTimeRegistry α :=
  let g := r.generateId
  let d := clampMs delay
  (g.1,
    { g.2 with
      timeouts := g.2.timeouts ++ [(g.1, ⟨handler, g.2.lastTime + d⟩)] })

/-- `UpdateableTimeRegistry.clearTimeout(id)` (src/time.ts lines 551-554). -/
def UpdateableTimeRegistry.clearTimeout (r : UpdateableTimeRegistry α)
    (id : Int) : UpdateableTimeRegistry α :=
  { r with timeouts := r.timeouts.filter (fun p => p.1 ≠ id) }

/-- One public operation on the deterministic registry, for stating
properties of arbitrary operation sequences. -/
inductive RegOp (α : Type) where
  | update (delta : Int)
  | setItvl (handler : α) (interval : Option Int)
  | clearItvl (id : Int)
  | setTout (handler : α) (delay : Option Int)
  | clearTout (id : Int)
deriving DecidableEq, Repr

/-- Apply one registry operation (discarding the firing trace and the
returned id, which do not affect the registry state). -/
def applyRegOp (r : UpdateableTimeRegistry α) :
    RegOp α → UpdateableTimeRegistry α
  | .update δ => (r.update δ).1
  | .setItvl h i => (r.setInterval h i).2
  | .clearItvl id => r.clearInterval id
  | .setTout h d => (r.setTimeout h d).2
  | .clearTout id => r.clearTimeout id

/-- Apply a sequence of registry operations in order. -/
def applyRegOps (r : UpdateableTimeRegistry α) (ops : List (RegOp α)) :
    UpdateableTimeRegistry α :=
  ops.foldl applyRegOp r

/-- `true` when every `update` operation in the list has a non-negative
delta. -/
def okDeltas : List (RegOp α) → Bool
  | [] => true
  | RegOp.update δ :: rest => decide (0 ≤ δ) && okDeltas rest
  | _ :: rest => okDeltas rest

/-- Registry states whose pending items all have a non-negative period and a
due time at or after the current logical clock.  This holds for every state
reachable from the constructor. -/
def GoodReg (r : UpdateableTimeRegistry α) : Prop :=
  (∀ p ∈ r.intervals,
      0 ≤ p.2.interval ∧ r.lastTime ≤ p.2.allowedExecutionTime) ∧
  ∀ p ∈ r.timeouts, r.lastTime ≤ p.2.allowedExecutionTime

/-- Settlement state of a JavaScript promise.  `resolve`/`reject` on an
already settled promise are no-ops. -/
inductive PromiseState where
  | pending
  | fulfilled
  | rejected (reason : String)
deriving DecidableEq, Repr

/-- `resolve()`: fulfill the promise if it is still pending. -/
def settleFulfill : PromiseState → PromiseState
  | .pending => .fulfilled
  | s => s

/-- `reject(reason)`: reject the promise if it is still pending. -/
def settleReject (reason : String) : PromiseState → PromiseState
  | .pending => .rejected reason
  | s => s

/-- Replace the element at an index by the image under `f` (out-of-range
indices leave the list unchanged).  Used for settling one promise inside a
store of promises. -/
def modifyAt (f : β → β) : List β → Nat → List β
  | [], _ => []
  | x :: xs, 0 => f x :: xs
  | x :: xs, n + 1 => x :: modifyAt f xs n

/-- World for one `Interval` primitive (src/time.ts lines 38-94) wired to its
own deterministic registry.  `ticks` is the log of values carried by the
`onTick` event, in firing order. -/
structure IntervalWorld where
  reg : UpdateableTimeRegistry Unit
  ticks : List Int
  period : Int
  isStarted : Bool
  cancelId : Option Int
deriving DecidableEq, Repr

/-- `new Interval(registry, interval, autoStart = false)` (src/time.ts lines
51-62) over a fresh `UpdateableTimeRegistry(t0)`: the period is clamped with
`Math.max(0, interval)` and the canceller starts as a no-op. -/
def imk (t0 interval : Int) : IntervalWorld :=
  { reg := mkRegistry Unit t0
    ticks := []
    period := max 0 interval
    isStarted := false
    cancelId := none }

/-- `Interval.start()` (src/time.ts lines 64-79): no-op when already started;
otherwise mark started and register the tick closure as a repeating item with
the stored period, remembering the returned id in the canceller. -/
def istart (w : IntervalWorld) : IntervalWorld :=
  if w.isStarted then w
  else
    let s := w.reg.setInterval () (some w.period)
    { w with isStarted := true, reg := s.2, cancelId := some s.1 }

/-- Driving `registry.update(delta)` for the `Interval` world.  Each firing of
the registered closure executes `this._onTick.fire(this._registry.now())`
(src/time.ts line 73); during `update` the registry field `_lastTime` still
holds its pre-update value (it is assigned only after the loops, line 507), so
each tick carries `w.reg.now` as evaluated before the update. -/
def iupdate (w : IntervalWorld) (delta : Int) : IntervalWorld :=
  let u := w.reg.update delta
  { w with
    reg := u.1
    ticks := w.ticks ++ u.2.1.map (fun _ => w.reg.now) }

/-- The concrete scenario of the spec: `UpdateableTimeRegistry(0)`, a started
interval of 500 ms, then a single `update(1100)`. -/
def c1World : IntervalWorld :=
  iupdate (istart (imk 0 500)) 1100

/-- World for one `Delay` primitive (src/time.ts lines 124-257) wired to its
own deterministic registry.  Promises are stored in an append-only list and
identified by their index; `promiseId` is the current `_promise`/`_resolver`/
`_rejecter` triple.  `canceller = some (tid, pid)` models the armed canceller
that captured timeout id `tid` and the rejecter of promise `pid`
(`_createCanceler(timeoutId, this._rejecter)`, line 204); `none` models the
no-op canceller. -/
structure DelayWorld where
  reg : UpdateableTimeRegistry Unit
  promises : List PromiseState
  promiseId : Nat
  duration : Int
  rejectOnCancel : Bool
  isStarted : Bool
  isInitialized : Bool
  canceller : Option (Int × Nat)
deriving DecidableEq, Repr

/-- `new Delay(registry, duration, rejectOnCancel, autoStart = false)`
(src/time.ts lines 145-163) over a fresh `UpdateableTimeRegistry(t0)`:
duration clamped with `Math.max(0, duration)`, fresh pending promise, no-op
canceller, `_isStarted = false`, `_isInitialized = true`. -/
def dmk (t0 duration : Int) (rejectOnCancel : Bool) : DelayWorld :=
  { reg := mkRegistry Unit t0
    promises := [.pending]
    promiseId := 0
    duration := max 0 duration
    rejectOnCancel
    isStarted := false
    isInitialized := true
    canceller := none }

/-- `Delay.start()` (src/time.ts lines 180-207): return unchanged when
`_isStarted` (which, in the source, is never actually set to `true`);
re-create the promise when not initialized; register the completion closure as
a one-shot item; arm the canceller with the returned timeout id and the
current rejecter.  The source guard `if (!timeoutId || !rejecter)` in
`_createCanceler` (line 238) makes the canceller a no-op when the timeout id
is the falsy number `0`.  Faithfully to the source, this function does NOT set
`isStarted := true`. -/
def dstart (w : DelayWorld) : DelayWorld :=
  if w.isStarted then w
  else
    let w1 :=
      if !w.isInitialized then
        { w with
          promises := w.promises ++ [.pending]
          promiseId := w.promises.length
          isInitialized := true }
      else w
    let s := w1.reg.setTimeout () (some w1.duration)
    { w1 with
      reg := s.2
      canceller := if s.1 = 0 then none else some (s.1, w1.promiseId) }

/-- `Delay.cancel()` (src/time.ts lines 209-212, 234-256): invoke the stored
canceller.  The no-op canceller does nothing; the armed canceller rejects the
captured rejecter's promise with `new Error("cancelled")` when
`_rejectOnCancel`, clears the captured timeout, resets the canceller to a
no-op and clears `_isStarted`/`_isInitialized`. -/
def dcancel (w : DelayWorld) : DelayWorld :=
  match w.canceller with
  | none => w
  | some (tid, pid) =>
    let ps :=
      if w.rejectOnCancel then modifyAt (settleReject "cancelled") w.promises pid
      else w.promises
    { w with
      promises := ps
      reg := w.reg.clearTimeout tid
      canceller := none
      isStarted := false
      isInitialized := false }

/-- Effect of one firing of the `Delay` completion closure (src/time.ts lines
194-202): clear `_isStarted`/`_isInitialized`, reset the canceller to a no-op
and call `this._resolver()` — the resolver FIELD read at fire time, i.e. the
resolver of the current `promiseId`. -/
def fireDelayTimeout (w : DelayWorld) : DelayWorld :=
  { w with
    isStarted := false
    isInitialized := false
    canceller := none
    promises := modifyAt settleFulfill w.promises w.promiseId }

/-- Driving `registry.update(delta)` for the `Delay` world: the registry fires
the due one-shot items in insertion order and each firing runs the completion
closure. -/
def dupdate (w : DelayWorld) (delta : Int) : DelayWorld :=
  let u := w.reg.update delta
  u.2.2.foldl (fun w _ => fireDelayTimeout w) { w with reg := u.1 }

/-- `Delay.reset(duration)` (src/time.ts lines 214-219): cancel, then clamp
and store the new duration. -/
def dreset (w : DelayWorld) (duration : Int) : DelayWorld :=
  { dcancel w with duration := max 0 duration }

/-- One public operation on a `Delay` world. -/
inductive DOp where
  | start
  | cancel
  | reset (duration : Int)
  | update (delta : Int)
deriving DecidableEq, Repr

/-- Apply one `Delay` operation. -/
def applyDOp (w : DelayWorld) : DOp → DelayWorld
  | .start => dstart w
  | .cancel => dcancel w
  | .reset d => dreset w d
  | .update δ => dupdate w δ

/-- Apply a sequence of `Delay` operations in order. -/
def applyDOps (w : DelayWorld) (ops : List DOp) : DelayWorld :=
  ops.foldl applyDOp w

/-- The failing trace for the cancellation claim: a 5 ms delay with
`rejectOnCancel = false`, started twice (the second `start()` is not stopped
because `Delay.start` never sets `_isStarted`), then cancelled, then the
registry is advanced past the duration.  The stale first timer fires and
fulfills the supposedly-cancelled promise. -/
def c6FailWorld : DelayWorld :=
  dupdate (dcancel (dstart (dstart (dmk 0 5 false)))) 5

/-- World for one `Until` primitive (src/time.ts lines 274-349) wired to its
own deterministic registry.  The handler label of the registered poll item is
the index of the promise whose resolver the poll closure captured.
`cond = some b` models the stored `_condition` callback currently returning
`b` (the external boolean it reads can be flipped by `usetCond`); `cond =
none` models the cleared reference (line 343). -/
structure UntilWorld where
  reg : UpdateableTimeRegistry Nat
  promises : List PromiseState
  promiseId : Nat
  cond : Option Bool
  isStarted : Bool
deriving DecidableEq, Repr

/-- `new Until(registry, condition, autoStart = false)` (src/time.ts lines
288-299) over a fresh `UpdateableTimeRegistry(t0)`: `_promise =
Promise.resolve()` — an already fulfilled promise — and `_isStarted =
false`. -/
def umk (t0 : Int) (c : Bool) : UntilWorld :=
  { reg := mkRegistry Nat t0
    promises := [.fulfilled]
    promiseId := 0
    cond := some c
    isStarted := false }

/-- `Until.start()` (src/time.ts lines 316-348): no-op when already started;
otherwise set `_isStarted = true`, replace `_promise` with a fresh pending
promise, and register the poll closure as a repeating item of period 0. -/
def ustart (w : UntilWorld) : UntilWorld :=
  if w.isStarted then w
  else
    let pid := w.promises.length
    let w1 :=
      { w with
        isStarted := true
        promises := w.promises ++ [PromiseState.pending]
        promiseId := pid }
    let s := w1.reg.setInterval pid (some 0)
    { w1 with reg := s.2 }

/-- Effect of one firing of the `Until` poll closure (src/time.ts lines
333-345) registered under interval id `iid` with captured resolver of promise
`pid`: when the stored condition returns `true`, fulfill that promise, clear
the interval and drop the condition reference; otherwise do nothing.  (A
cleared condition is never reached by a live poll item, since clearing happens
together with removing the item.) -/
def fireUntilPoll (w : UntilWorld) (iid : Int) (pid : Nat) : UntilWorld :=
  match w.cond with
  | some true =>
    { w with
      promises := modifyAt settleFulfill w.promises pid
      reg := w.reg.clearInterval iid
      cond := none }
  | _ => w

/-- Driving `registry.update(delta)` for the `Until` world: the registry fires
the due repeating items in insertion order and each firing runs the poll
closure. -/
def uupdate (w : UntilWorld) (delta : Int) : UntilWorld :=
  let u := w.reg.update delta
  u.2.1.foldl (fun w p => fireUntilPoll w p.1 p.2) { w with reg := u.1 }

/-- External mutation of the boolean read by the stored condition callback;
without effect once the reference has been cleared. -/
def usetCond (w : UntilWorld) (b : Bool) : UntilWorld :=
  { w with cond := w.cond.map (fun _ => b) }

/-- One public operation on an `Until` world. -/
inductive UOp where
  | start
  | update (delta : Int)
  | setCond (b : Bool)
deriving DecidableEq, Repr

/-- Apply one `Until` operation. -/
def applyUOp (w : UntilWorld) : UOp → UntilWorld
  | .start => ustart w
  | .update δ => uupdate w δ
  | .setCond b => usetCond w b

/-- Apply a sequence of `Until` operations in order. -/
def applyUOps (w : UntilWorld) (ops : List UOp) : UntilWorld :=
  ops.foldl applyUOp w

/-- The registry carrying one 500 ms repeating item, freshly registered at
time 0 — the creation/firing scenario for the due-time invariant claim. -/
def c3Reg : UpdateableTimeRegistry Unit :=
  ((mkRegistry Unit 0).setInterval () (some 500)).2

/-- `c3Reg` after a single `update(1100)`. -/
def c3After : UpdateableTimeRegistry Unit :=
  (c3Reg.update 1100).1

theorem clampMs_eq_max (o : Option Int) : clampMs o = max 0 (o.getD 0) := by
  cases o with
  | none => rfl
  | some i =>
    by_cases hi : i = 0
    · simp [clampMs, hi]
    · simp [clampMs, hi, max_comm]

theorem modifyAt_get?_zero (f : β → β) (l : List β) (n : Nat) (hn : n ≠ 0) :
    (modifyAt f l n).get? 0 = l.get? 0 := by
  cases l with
  | nil => rfl
  | cons x xs =>
    cases n with
    | zero => exact absurd rfl hn
    | succ m => rfl

theorem runIntervals_eq (ct : Int) (l : List (Int × IntervalHandler α)) :
    runIntervals ct l =
      (l.map (fun p =>
          if p.2.allowedExecutionTime ≤ ct then
            (p.1, ⟨p.2.handler, ct + p.2.interval, p.2.interval⟩)
          else p),
        (l.filter (fun p => decide (p.2.allowedExecutionTime ≤ ct))).map
          (fun p => (p.1, p.2.handler))) := by
  induction l with
  | nil => rfl
  | cons hd tl ih =>
    obtain ⟨id, h⟩ := hd
    by_cases hc : h.allowedExecutionTime ≤ ct
    · simp [runIntervals, ih, hc, ge_iff_le]
    · simp [runIntervals, ih, hc, ge_iff_le]

theorem runTimeouts_eq (ct : Int) (l : List (Int × TimeoutHandler α)) :
    runTimeouts ct l =
      (l.filter (fun p => !decide (p.2.allowedExecutionTime ≤ ct)),
        (l.filter (fun p => decide (p.2.allowedExecutionTime ≤ ct))).map
          (fun p => (p.1, p.2.handler))) := by
  induction l with
  | nil => rfl
  | cons hd tl ih =>
    obtain ⟨id, h⟩ := hd
    by_cases hc : h.allowedExecutionTime ≤ ct
    · simp [runTimeouts, ih, hc, ge_iff_le]
    · simp [runTimeouts, ih, hc, ge_iff_le]

/-- Claim C2: for every registry state and every delta, `update(delta)`
computes `currentTime = lastTime + delta`; the repeating-item firing trace
lists exactly the items with `allowedExecutionTime ≤ currentTime`, once each
and in insertion order (so no item fires more than once in one call, however
many periods the delta spans), and each fired repeating item's due time
becomes `currentTime + periodMs`; the one-shot firing trace lists exactly the
due one-shot items, which are removed; afterwards `lastTime = currentTime`. -/
theorem C2_update_characterization (α : Type) (r : UpdateableTimeRegistry α)
    (δ : Int) :
    (r.update δ).1.lastTime = r.lastTime + δ ∧
    (r.update δ).2.1 =
      (r.intervals.filter
          (fun p => decide (p.2.allowedExecutionTime ≤ r.lastTime + δ))).map
        (fun p => (p.1, p.2.handler)) ∧
    (r.update δ).1.intervals =
      r.intervals.map (fun p =>
        if p.2.allowedExecutionTime ≤ r.lastTime + δ then
          (p.1, ⟨p.2.handler, r.lastTime + δ + p.2.interval, p.2.interval⟩)
        else p) ∧
    (r.update δ).2.2 =
      (r.timeouts.filter
          (fun p => decide (p.2.allowedExecutionTime ≤ r.lastTime + δ))).map
        (fun p => (p.1, p.2.handler)) ∧
    (r.update δ).1.timeouts =
      r.timeouts.filter
        (fun p => !decide (p.2.allowedExecutionTime ≤ r.lastTime + δ)) := by
  refine ⟨rfl, ?_, ?_, ?_, ?_⟩ <;>
    simp [UpdateableTimeRegistry.update, runIntervals_eq, runTimeouts_eq]

/-- Claim C1 counterexample: in the scenario `UpdateableTimeRegistry(0)`,
started 500 ms interval, one `update(1100)`, the tick event does NOT fire
twice and does NOT carry the times 500 and 1000. -/
theorem C1_counterexample :
    c1World.ticks.length ≠ 2 ∧ c1World.ticks ≠ [(500 : Int), 1000] := by
  decide

/-- Claim C1 (amended): in that scenario the tick event fires exactly once
(one firing per item per `update` call), and the tick carries logical time 0 —
the value of `registry.now()` at handler-invocation time, because `update`
assigns `_lastTime = currentTime` only after invoking the handlers; the
registry's clock afterwards reads 1100. -/
theorem C1_amended_single_tick :
    c1World.ticks = [(0 : Int)] ∧ c1World.reg.lastTime = 1100 := by
  decide

/-- Claim C3 counterexample: for the 500 ms repeating item created at time 0
(due at 500) and fired by `update(1100)`, the new due time is 1600 =
`currentTime + periodMs`, not 1000 = old due time + periodMs: the due time is
not "increased by exactly periodMs". -/
theorem C3_counterexample :
    c3After.intervals.map (fun p => p.2.allowedExecutionTime) = [(1600 : Int)] ∧
    ¬ ((1600 : Int) = 500 + 500) := by
  decide

/-- Claim C3 (amended): at creation a pending item's due time equals the
scheduler's own current internal time plus `max(period_or_delay, 0)` (for both
`setInterval` and `setTimeout`), and after each firing a repeating item's due
time is set to `currentTime + periodMs` (hence advanced by exactly `periodMs`
only when the item fired precisely at its due time).  Due times are computed
only from the registry's internal `lastTime`, never from wall-clock time, as
the equations show. -/
theorem C3_due_time_invariant (α : Type) (r : UpdateableTimeRegistry α)
    (h : α) (i d : Option Int) (δ : Int) :
    (r.setInterval h i).2.intervals =
      r.intervals ++
        [((r.setInterval h i).1,
          ⟨h, r.now + max 0 (i.getD 0), max 0 (i.getD 0)⟩)] ∧
    (r.setTimeout h d).2.timeouts =
      r.timeouts ++
        [((r.setTimeout h d).1, ⟨h, r.now + max 0 (d.getD 0)⟩)] ∧
    (r.update δ).1.intervals =
      r.intervals.map (fun p =>
        if p.2.allowedExecutionTime ≤ r.lastTime + δ then
          (p.1, ⟨p.2.handler, r.lastTime + δ + p.2.interval, p.2.interval⟩)
        else p) := by
  refine ⟨?_, ?_, ?_⟩
  · simp [UpdateableTimeRegistry.setInterval, UpdateableTimeRegistry.generateId,
      UpdateableTimeRegistry.now, clampMs_eq_max]
  · simp [UpdateableTimeRegistry.setTimeout, UpdateableTimeRegistry.generateId,
      UpdateableTimeRegistry.now, clampMs_eq_max]
  · simp [UpdateableTimeRegistry.update, runIntervals_eq]

theorem clampMs_nonneg (o : Option Int) : 0 ≤ clampMs o := by
  rw [clampMs_eq_max]; exact le_max_left _ _

theorem now_applyRegOp_update (r : UpdateableTimeRegistry α) (δ : Int) :
    (applyRegOp r (RegOp.update δ)).now = r.now + δ := rfl

theorem goodReg_mk (α : Type) (t0 : Int) : GoodReg (mkRegistry α t0) := by
  constructor
  · intro p hp; simp [mkRegistry] at hp
  · intro p hp; simp [mkRegistry] at hp

theorem goodReg_applyRegOp (r : UpdateableTimeRegistry α) (op : RegOp α)
    (hr : GoodReg r) : GoodReg (applyRegOp r op) := by
  obtain ⟨hri, hrt⟩ := hr
  cases op with
  | update δ =>
    constructor
    · intro p hp
      simp only [applyRegOp, UpdateableTimeRegistry.update, runIntervals_eq] at hp ⊢
      obtain ⟨q, hq, hfq⟩ := List.mem_map.1 hp
      obtain ⟨hq0, hq1⟩ := hri q hq
      by_cases hdue : q.2.allowedExecutionTime ≤ r.lastTime + δ
      · subst hfq; simp [hdue]; omega
      · subst hfq; simp [hdue]; omega
    · intro p hp
      simp only [applyRegOp, UpdateableTimeRegistry.update, runTimeouts_eq] at hp ⊢
      obtain ⟨hq, hcond⟩ := List.mem_filter.1 hp
      simp at hcond
      omega
  | setItvl a i =>
    constructor
    · intro p hp
      simp only [applyRegOp, UpdateableTimeRegistry.setInterval,
        UpdateableTimeRegistry.generateId, List.mem_append] at hp
      rcases hp with hp | hp
      · exact hri p hp
      · simp at hp
        subst hp
        refine ⟨clampMs_nonneg i, ?_⟩
        have := clampMs_nonneg i
        simp [applyRegOp, UpdateableTimeRegistry.setInterval,
          UpdateableTimeRegistry.generateId]
        omega
    · intro p hp
      exact hrt p hp
  | clearItvl id =>
    constructor
    · intro p hp
      exact hri p (List.mem_filter.1 hp).1
    · intro p hp
      exact hrt p hp
  | setTout a d =>
    constructor
    · intro p hp
      exact hri p hp
    · intro p hp
      simp only [applyRegOp, UpdateableTimeRegistry.setTimeout,
        UpdateableTimeRegistry.generateId, List.mem_append] at hp
      rcases hp with hp | hp
      · exact hrt p hp
      · simp at hp
        subst hp
        have := clampMs_nonneg d
        simp [applyRegOp, UpdateableTimeRegistry.setTimeout,
          UpdateableTimeRegistry.generateId]
        omega
  | clearTout id =>
    constructor
    · intro p hp
      exact hri p hp
    · intro p hp
      exact hrt p (List.mem_filter.1 hp).1

theorem goodReg_applyRegOps (r : UpdateableTimeRegistry α)
    (ops : List (RegOp α)) (hr : GoodReg r) : GoodReg (applyRegOps r ops) := by
  induction ops generalizing r with
  | nil => exact hr
  | cons op rest ih => exact ih (applyRegOp r op) (goodReg_applyRegOp r op hr)

/-- Claim C4 counterexample: `now()` is not monotonic over arbitrary operation
sequences — a single `update(-5)` on `UpdateableTimeRegistry(0)` makes a later
`now()` read `-5`, smaller than the earlier read `0`. -/
theorem C4_counterexample :
    (applyRegOps (mkRegistry Unit 0) [RegOp.update (-5)]).now <
      (mkRegistry Unit 0).now := by
  decide

/-- Claim C4 (amended): within one deterministic scheduler instance, `now()`
is monotonic non-decreasing across every sequence of schedule/cancel/update
operations in which every `update` delta is non-negative; an `update` with a
negative delta (accepted by design) moves `now()` backward. -/
theorem C4_now_monotone (α : Type) (r : UpdateableTimeRegistry α)
    (ops : List (RegOp α)) (h : okDeltas ops = true) :
    r.now ≤ (applyRegOps r ops).now := by
  induction ops generalizing r with
  | nil => exact le_refl _
  | cons op rest ih =>
    have hstep : applyRegOps r (op :: rest) = applyRegOps (applyRegOp r op) rest := rfl
    rw [hstep]
    cases op with
    | update δ =>
      simp only [okDeltas, Bool.and_eq_true, decide_eq_true_eq] at h
      calc r.now ≤ r.now + δ := by omega
        _ = (applyRegOp r (RegOp.update δ)).now := rfl
        _ ≤ _ := ih _ h.2
    | setItvl a i => exact ih _ h
    | clearItvl id => exact ih _ h
    | setTout a d => exact ih _ h
    | clearTout id => exact ih _ h

/-- Witness for the amended C4 theorem at a concrete input. -/
theorem C4_now_monotone_witness :
    okDeltas [RegOp.update (3 : Int), RegOp.setItvl () (some 7)] = true ∧
    (mkRegistry Unit 0).now ≤
      (applyRegOps (mkRegistry Unit 0)
        [RegOp.update (3 : Int), RegOp.setItvl () (some 7)]).now :=
  ⟨by decide,
    C4_now_monotone Unit (mkRegistry Unit 0)
      [RegOp.update (3 : Int), RegOp.setItvl () (some 7)] (by decide)⟩

theorem update_neg_of_goodReg (r : UpdateableTimeRegistry α) (δ : Int)
    (hδ : δ < 0) (hg : GoodReg r) :
    (r.update δ).2.1 = [] ∧ (r.update δ).2.2 = [] ∧
      (r.update δ).1.lastTime < r.lastTime := by
  obtain ⟨hgi, hgt⟩ := hg
  refine ⟨?_, ?_, by simp [UpdateableTimeRegistry.update]; omega⟩
  · simp only [UpdateableTimeRegistry.update, runIntervals_eq]
    have hfil : r.intervals.filter
        (fun p => decide (p.2.allowedExecutionTime ≤ r.lastTime + δ)) = [] := by
      refine List.filter_eq_nil_iff.2 ?_
      intro p hp
      have := (hgi p hp).2
      simp; omega
    simp [hfil]
  · simp only [UpdateableTimeRegistry.update, runTimeouts_eq]
    have hfil : r.timeouts.filter
        (fun p => decide (p.2.allowedExecutionTime ≤ r.lastTime + δ)) = [] := by
      refine List.filter_eq_nil_iff.2 ?_
      intro p hp
      have := hgt p hp
      simp; omega
    simp [hfil]

/-- Claim C5: every registry operation is a total function (each operation of
the embedding is a total Lean function), and from every reachable scheduler
state an `update` with a negative delta moves the internal clock strictly
backward and fires no repeating and no one-shot item. -/
theorem C5_negative_delta_no_firings (α : Type) (t0 δ : Int)
    (ops : List (RegOp α)) (hδ : δ < 0) :
    ((applyRegOps (mkRegistry α t0) ops).update δ).2.1 = [] ∧
    ((applyRegOps (mkRegistry α t0) ops).update δ).2.2 = [] ∧
    ((applyRegOps (mkRegistry α t0) ops).update δ).1.lastTime <
      (applyRegOps (mkRegistry α t0) ops).lastTime :=
  update_neg_of_goodReg (applyRegOps (mkRegistry α t0) ops) δ hδ
    (goodReg_applyRegOps (mkRegistry α t0) ops (goodReg_mk α t0))

/-- Witness for the C5 theorem at a concrete input. -/
theorem C5_negative_delta_witness :
    (-1 : Int) < 0 ∧
    (((applyRegOps (mkRegistry Unit 0) [RegOp.setItvl () (some 5)]).update (-1)).2.1 = [] ∧
     ((applyRegOps (mkRegistry Unit 0) [RegOp.setItvl () (some 5)]).update (-1)).2.2 = [] ∧
     ((applyRegOps (mkRegistry Unit 0) [RegOp.setItvl () (some 5)]).update (-1)).1.lastTime <
       (applyRegOps (mkRegistry Unit 0) [RegOp.setItvl () (some 5)]).lastTime) :=
  ⟨by decide, C5_negative_delta_no_firings Unit 0 (-1) [RegOp.setItvl () (some 5)] (by decide)⟩

theorem clampMs_some_nonneg (x : Int) (hx : 0 ≤ x) : clampMs (some x) = x := by
  by_cases h0 : x = 0
  · simp [clampMs, h0]
  · simp [clampMs, h0, max_eq_left hx]

theorem dcancel_of_canceller_none (w : DelayWorld) (h : w.canceller = none) :
    dcancel w = w := by
  simp [dcancel, h]

theorem min_safe_ne_zero : MIN_SAFE_INTEGER ≠ 0 := by decide

theorem min_safe_succ_ne_max : MIN_SAFE_INTEGER + 1 ≠ MAX_SAFE_INTEGER := by
  decide

/-- Claim C6 (evaluation of the code at the failing input): cancelling the
canonical running delay with `rejectOnCancel = true` does reject its promise
with the cancellation error, but the `rejectOnCancel = false` half of the
claim — "its deferred result never settles" — fails on the code: since
`Delay.start` never sets `_isStarted`, a running delay that was started twice
keeps a stale first timer that `cancel()` does not clear, and advancing the
registry past the duration then fulfills the cancelled delay's promise. -/
theorem C6_cancelled_delay_settles :
    (dcancel (dstart (dmk 0 5 true))).promises.get? 0 =
      some (PromiseState.rejected "cancelled") ∧
    c6FailWorld.promises.get? 0 = some PromiseState.fulfilled := by
  decide

/-- Claim C7 (evaluation of the code at the failing input): calling `start()`
twice on a `Delay` is not a no-op — the second call registers a second
one-shot item with the scheduler, because `Delay.start` never sets
`_isStarted = true` and so its own idempotence guard can never trip. -/
theorem C7_delay_double_start_duplicates (t0 d : Int) (roc : Bool) :
    ((dstart (dstart (dmk t0 d roc))).reg.timeouts).length = 2 := by
  simp [dstart, dmk, mkRegistry, UpdateableTimeRegistry.setTimeout,
    UpdateableTimeRegistry.generateId]

/-- The state of the canonical delay after its timer has fired: the promise is
fulfilled, the flags are cleared, the one-shot item is gone and the canceller
is back to the no-op. -/
theorem delay_fired_state (t0 d : Int) (roc : Bool) :
    dupdate (dstart (dmk t0 d roc)) (max 0 d) =
      { reg :=
          { intervals := []
            timeouts := []
            currentId := MIN_SAFE_INTEGER + 1
            lastTime := t0 + max 0 d }
        promises := [PromiseState.fulfilled]
        promiseId := 0
        duration := max 0 d
        rejectOnCancel := roc
        isStarted := false
        isInitialized := false
        canceller := none } := by
  have hc : clampMs (some (max 0 d)) = max 0 d :=
    clampMs_some_nonneg _ (le_max_left _ _)
  simp [dmk, dstart, dupdate, mkRegistry, UpdateableTimeRegistry.setTimeout,
    UpdateableTimeRegistry.generateId, UpdateableTimeRegistry.update,
    runIntervals, runTimeouts, hc, fireDelayTimeout, modifyAt, settleFulfill,
    min_safe_ne_zero, min_safe_succ_ne_max]

/-- Claim C10: for every delay that is not currently running — never started,
already fulfilled by its timer, or already cancelled — the stored canceller is
the no-op one, so `cancel()` leaves the whole state (promise store, registry,
flags, duration) unchanged, whatever `rejectOnCancel` is. -/
theorem C10_cancel_noop_when_not_running (t0 d : Int) (roc : Bool) :
    dcancel (dmk t0 d roc) = dmk t0 d roc ∧
    (dupdate (dstart (dmk t0 d roc)) (max 0 d)).promises.get? 0 =
      some PromiseState.fulfilled ∧
    dcancel (dupdate (dstart (dmk t0 d roc)) (max 0 d)) =
      dupdate (dstart (dmk t0 d roc)) (max 0 d) ∧
    dcancel (dcancel (dstart (dmk t0 d roc))) =
      dcancel (dstart (dmk t0 d roc)) := by
  refine ⟨dcancel_of_canceller_none _ rfl, ?_, ?_, ?_⟩
  · rw [delay_fired_state]; rfl
  · exact dcancel_of_canceller_none _ (by rw [delay_fired_state])
  · refine dcancel_of_canceller_none _ ?_
    simp [dmk, dstart, dcancel, mkRegistry, UpdateableTimeRegistry.setTimeout,
      UpdateableTimeRegistry.generateId, min_safe_ne_zero]

/-- Claim C8: an `Until` constructed with `autoStart = false` holds an already
fulfilled promise, so every awaiter attached before `start()` observes
immediate fulfillment regardless of the predicate; `start()` switches
`_promise` to a fresh pending promise (a different promise id), leaving the
original fulfilled one behind, so the early awaiters are never tied to
predicate satisfaction. -/
theorem C8_until_initial_promise_resolved (t0 : Int) (c : Bool) :
    (umk t0 c).promises.get? (umk t0 c).promiseId =
      some PromiseState.fulfilled ∧
    (ustart (umk t0 c)).promiseId ≠ (umk t0 c).promiseId ∧
    (ustart (umk t0 c)).promises.get? (umk t0 c).promiseId =
      some PromiseState.fulfilled ∧
    (ustart (umk t0 c)).promises.get? (ustart (umk t0 c)).promiseId =
      some PromiseState.pending := by
  refine ⟨rfl, ?_, ?_, ?_⟩ <;>
    simp [umk, ustart, UpdateableTimeRegistry.setInterval,
      UpdateableTimeRegistry.generateId, mkRegistry]

theorem fireUntilPoll_isStarted (w : UntilWorld) (iid : Int) (pid : Nat) :
    (fireUntilPoll w iid pid).isStarted = w.isStarted := by
  unfold fireUntilPoll
  rcases w.cond with _ | b
  · rfl
  · cases b <;> rfl

theorem foldPoll_isStarted (l : List (Int × Nat)) (w : UntilWorld) :
    (l.foldl (fun w p => fireUntilPoll w p.1 p.2) w).isStarted = w.isStarted := by
  induction l generalizing w with
  | nil => rfl
  | cons x xs ih => rw [List.foldl_cons, ih, fireUntilPoll_isStarted]

theorem applyUOp_isStarted (w : UntilWorld) (op : UOp)
    (h : w.isStarted = true) : (applyUOp w op).isStarted = true := by
  cases op with
  | start => simp [applyUOp, ustart, h]
  | update δ =>
    show (uupdate w δ).isStarted = true
    unfold uupdate
    rw [foldPoll_isStarted]
    exact h
  | setCond b => simpa [applyUOp, usetCond] using h

theorem applyUOps_isStarted (w : UntilWorld) (ops : List UOp)
    (h : w.isStarted = true) : (applyUOps w ops).isStarted = true := by
  induction ops generalizing w with
  | nil => exact h
  | cons op rest ih => exact ih (applyUOp w op) (applyUOp_isStarted w op h)

/-- Claim C9: once `start()` has been called on an `Until`, its `_isStarted`
flag remains `true` under every further sequence of operations (updates,
external predicate changes, further starts) — nothing ever clears it, not even
predicate satisfaction — and therefore every subsequent `start()` call is a
strict no-op, returning the identical state (same object, same — possibly
settled — promise): the `Until` cannot be restarted for a second wait. -/
theorem C9_until_started_forever (w : UntilWorld) (ops : List UOp)
    (h : w.isStarted = true) :
    (applyUOps w ops).isStarted = true ∧
    ustart (applyUOps w ops) = applyUOps w ops := by
  have h2 := applyUOps_isStarted w ops h
  exact ⟨h2, by simp [ustart, h2]⟩

/-- Witness for the C9 theorem at a concrete input: a started `Until` whose
predicate becomes true after one poll, driven through polls that settle it. -/
theorem C9_until_started_forever_witness :
    (ustart (umk 0 false)).isStarted = true ∧
    ((applyUOps (ustart (umk 0 false))
        [UOp.update 3, UOp.setCond true, UOp.update 2]).isStarted = true ∧
      ustart (applyUOps (ustart (umk 0 false))
          [UOp.update 3, UOp.setCond true, UOp.update 2]) =
        applyUOps (ustart (umk 0 false))
          [UOp.update 3, UOp.setCond true, UOp.update 2]) :=
  ⟨by decide,
    C9_until_started_forever (ustart (umk 0 false))
      [UOp.update 3, UOp.setCond true, UOp.update 2] (by decide)⟩

end TimeLib
